import Mathlib

/-!
Verification of the mp4seek header-rewriting core (`mp4seek/iso.py`).

The sample-table arithmetic and the header rewriter are embedded as pure
Lean functions over `Int` (Python integers are unbounded, so no wrap-around
modelling is needed).  Python's floor division `//` is `Int.fdiv`, Python's
`%` is `Int.fmod` (both take the sign of the divisor, like Python), and
Python's `int(ceil(a / float(b)))` is the exact ceiling `-((-a).fdiv b)`.
Operations that can raise `ZeroDivisionError` / `IndexError` in Python are
embedded in `Option`, with `none` standing for the raised exception.
Python list slices (which clamp and wrap negative indices) are embedded by
`pyIdx` / `pySlice` / `pyDropFrom`.
-/

namespace Mp4seek

/-- Clamped index conversion used by Python slices: negative indices count
from the end and everything is clamped into `[0, n]`. -/
def pyIdx (n : Nat) (i : Int) : Nat :=
  if i < 0 then ((n : Int) + i).toNat else min i.toNat n

/-- Python's `l[a:b]`. -/
def pySlice (l : List Int) (a b : Int) : List Int :=
  (l.take (pyIdx l.length b)).drop (pyIdx l.length a)

/-- Python's `l[a:]`. -/
def pyDropFrom {α : Type} (l : List α) (a : Int) : List α :=
  l.drop (pyIdx l.length a)

/-- Python's `l[i]` on a list of integers: negative indices wrap once,
out-of-range access is an `IndexError` (`none`). -/
def pyGet (l : List Int) (i : Int) : Option Int :=
  if i < 0 then
    if (l.length : Int) + i < 0 then none else l.get? ((l.length : Int) + i).toNat
  else l.get? i.toNat

/-- Python's `int(ceil(a / float(b)))` for integers, as an exact ceiling
(the reference uses binary floats; we embed the exact rational ceiling). -/
def pyCeilDiv (a b : Int) : Int := -((-a).fdiv b)

/-- Sum of the `count` column of an `stts`-style run-length table. -/
def sumCounts (l : List (Int × Int)) : Int := (l.map Prod.fst).sum

/-- Total duration of an `stts`-style run-length table:
sum over runs of `count * delta`. -/
def durStts (l : List (Int × Int)) : Int := (l.map (fun p => p.1 * p.2)).sum

/-- A well-formed `stts` table: every run has a positive sample count and a
positive delta. -/
def SttsWF (l : List (Int × Int)) : Prop := ∀ p ∈ l, 0 < p.1 ∧ 0 < p.2

instance (l : List (Int × Int)) : Decidable (SttsWF l) := by
  unfold SttsWF; infer_instance

/-- Loop of `find_samplenum_stts` (iso.py lines 250-268), carrying the
accumulated media time `ctime` and the 1-based sample counter `samples`.
`none` is the `ZeroDivisionError` raised when the matching run has
`delta = 0`. -/
def fsAux : List (Int × Int) → Int → Int → Int → Option Int
  | [], _, _, samples => some samples
  | (count, delta) :: rest, mt, ctime, samples =>
    if mt = ctime then some samples
    else if mt < ctime + count * delta then
      if delta = 0 then none
      else some (samples + pyCeilDiv (mt - ctime) delta)
    else fsAux rest mt (ctime + count * delta) (samples + count)

/-- `find_samplenum_stts(stts, mt)` (iso.py lines 250-268). -/
def find_samplenum_stts (stts : List (Int × Int)) (mt : Int) : Option Int :=
  fsAux stts mt 0 1

/-- Loop of `find_mediatime_stts` (iso.py lines 270-281). -/
def fmAux : List (Int × Int) → Int → Int → Int → Int
  | [], _, ctime, _ => ctime
  | (count, delta) :: rest, sample, ctime, samples =>
    if sample ≤ samples + count then ctime + (sample - samples) * delta
    else fmAux rest sample (ctime + count * delta) (samples + count)

/-- `find_mediatime_stts(stts, sample)` (iso.py lines 270-281). -/
def find_mediatime_stts (stts : List (Int × Int)) (sample : Int) : Int :=
  fmAux stts sample 0 1

/-- `find_mediatimes(stts, samples)` (iso.py lines 283-299): ordered bulk
variant, walking both lists with accumulated `ctime` and `total_samples`. -/
def fmsAux : List (Int × Int) → List Int → Int → Int → List Int
  | _, [], _, _ => []
  | [], _ :: _, _, _ => []
  | (count, delta) :: rest, sample :: srest, ctime, total =>
    if sample ≤ total + count then
      (ctime + (sample - total) * delta) :: fmsAux ((count, delta) :: rest) srest ctime total
    else fmsAux rest (sample :: srest) (ctime + count * delta) (total + count)
  termination_by stts samples => stts.length + samples.length

/-- `find_mediatimes(stts, samples)` (iso.py lines 283-299). -/
def find_mediatimes (stts : List (Int × Int)) (samples : List Int) : List Int :=
  fmsAux stts samples 0 1

/-- Loop of `find_chunknum_stsc` (iso.py lines 301-315), carrying the
current first chunk, its samples-per-chunk and the accumulated 1-based
sample counter.  The final `//` raises `ZeroDivisionError` (`none`) when
`per_chunk` is still `0`. -/
def fcAux : List (Int × Int × Int) → Int → Int → Int → Int → Option Int
  | [], sample_num, current, per_chunk, samples =>
    if per_chunk = 0 then none
    else some ((sample_num - samples).fdiv per_chunk + current)
  | (next, npc, _) :: rest, sample_num, current, per_chunk, samples =>
    let samples_here := (next - current) * per_chunk
    if samples + samples_here > sample_num then
      if per_chunk = 0 then none
      else some ((sample_num - samples).fdiv per_chunk + current)
    else fcAux rest sample_num next npc (samples + samples_here)

/-- `find_chunknum_stsc(stsc, sample_num)` (iso.py lines 301-315). -/
def find_chunknum_stsc (stsc : List (Int × Int × Int)) (sample_num : Int) : Option Int :=
  fcAux stsc sample_num 1 0 1

/-- `get_chunk_offset(stco64, chunk_num)` (iso.py lines 317-319):
`stco64[chunk_num - 1]` with Python indexing. -/
def get_chunk_offset (stco64 : List Int) (chunk_num : Int) : Option Int :=
  pyGet stco64 (chunk_num - 1)

/-- `cut_stco64(stco64, chunk_num, offset_change, first_chunk_delta)`
(iso.py lines 957-961). -/
def cut_stco64 (stco64 : List Int) (chunk_num offset_change first_chunk_delta : Int) :
    List Int :=
  let new_table := (pyDropFrom stco64 (chunk_num - 1)).map (fun offset => offset - offset_change)
  match new_table with
  | [] => []
  | x :: xs => if first_chunk_delta ≠ 0 then (x + first_chunk_delta) :: xs else x :: xs

/-- Loop of `cut_stco64_stsc` (iso.py lines 966-979): walks the `stsc` rows
up to the cut chunk, returning the truncated-and-renumbered table (if the
walk broke at a row past the cut chunk) together with the last row's
`per_chunk`, `sdidx` and the accumulated sample counter. -/
def cssLoop : List (Int × Int × Int) → Int → Int → Int → Int → Int →
    Option (List (Int × Int × Int)) × Int × Int × Int
  | [], _, _, per_chunk, sdidx, samples => (none, per_chunk, sdidx, samples)
  | (next, npc, nsd) :: rest, chunk_num, current, per_chunk, sdidx, samples =>
    if next > chunk_num then
      (some ((1, per_chunk, sdidx) ::
        (((next, npc, nsd) :: rest).map
          (fun r => (r.1 - (chunk_num - 1), r.2.1, r.2.2)))),
       per_chunk, sdidx, samples)
    else cssLoop rest chunk_num next npc nsd (samples + (next - current) * per_chunk)

/-- `cut_stco64_stsc(stco64, stsc, stsz2, chunk_num, sample_num,
offset_change)` (iso.py lines 963-1002).  `none` is the
`ZeroDivisionError` raised by `(sample_num - samples) % per_chunk` when
the walk ends with `per_chunk = 0` (empty `stsc`, or a break before the
first row advanced).  The initial `sdidx` is Python's `None`; it can only
reach the result through rows whose `per_chunk` is still `0`, which raise
before returning, so embedding it as `0` is unobservable. -/
def cut_stco64_stsc (stco64 : List Int) (stsc : List (Int × Int × Int)) (stsz2 : List Int)
    (chunk_num sample_num offset_change : Int) :
    Option (List Int × List (Int × Int × Int)) :=
  let r := cssLoop stsc chunk_num 1 0 0 1
  let new_stsc0 : List (Int × Int × Int) :=
    match r.1 with
    | some l => l
    | none => [(1, r.2.1, r.2.2.1)]
  let per_chunk := r.2.1
  let samples := r.2.2.2
  if per_chunk = 0 then none
  else
    let lead_samples := (sample_num - samples).fmod per_chunk
    let bytes_offset :=
      if lead_samples > 0 then
        (pySlice stsz2 (sample_num - 1 - lead_samples) (sample_num - 1)).sum
      else 0
    let new_stsc :=
      if lead_samples > 0 then
        match new_stsc0 with
        | [] => []
        | fstsc :: rest =>
          let new_fstsc := (1, fstsc.2.1 - lead_samples, fstsc.2.2)
          match rest with
          | [] => [new_fstsc, (2, fstsc.2.1, fstsc.2.2)]
          | (c2, p2, s2) :: rest2 =>
            if c2 = 2 then new_fstsc :: (c2, p2, s2) :: rest2
            else new_fstsc :: (2, fstsc.2.1, fstsc.2.2) :: (c2, p2, s2) :: rest2
      else new_stsc0
    some (cut_stco64 stco64 chunk_num offset_change bytes_offset, new_stsc)

/-- `cut_sctts(sctts, sample)` (iso.py lines 1004-1013), with the 1-based
sample counter as an accumulator. -/
def csAux : List (Int × Int) → Int → Int → List (Int × Int)
  | [], _, _ => []
  | (count, delta) :: rest, sample, samples =>
    if samples + count > sample then (samples + count - sample, delta) :: rest
    else csAux rest sample (samples + count)

/-- `cut_sctts(sctts, sample)` (iso.py lines 1004-1013). -/
def cut_sctts (sctts : List (Int × Int)) (sample : Int) : List (Int × Int) :=
  csAux sctts sample 1

/-- `cut_stss(stss, sample)` (iso.py lines 1015-1023). -/
def cut_stss : List Int → Int → List Int
  | [], _ => []
  | snum :: rest, sample =>
    if snum ≥ sample then (snum :: rest).map (fun s => s - sample + 1)
    else cut_stss rest sample

/-- `cut_stsz2(stsz2, sample)` (iso.py lines 1025-1028). -/
def cut_stsz2 (stsz2 : List Int) (sample : Int) : List Int :=
  if stsz2 = [] then [] else pyDropFrom stsz2 (sample - 1)

/-- `stsz.read` table construction (iso.py lines 548-557): when
`sample_size != 0` no per-sample table is read and the parsed table is
empty. -/
def stsz_read_table (sample_size : Int) (sizes : List Int) : List Int :=
  if sample_size = 0 then sizes else []

/-! ## The box tree

Typed boxes bound to their source atoms (iso.py lines 90-199 and 381-886).
Each box keeps its atom's original `size` and its head length.
Modelled from the spec: the atom reader lives in the repository's missing
`atoms.py`; per the spec, `head_size()` is 8, 16 or 24 depending on the
size/uuid encoding and a `FullAtom`'s `head_size_ext()` is
`head_size() + 4`, so we carry `head` as parsed data on each atom. -/

structure AtomInfo where
  size : Int
  head : Int
deriving Repr, DecidableEq

/-- The `stts` box (iso.py lines 486-504). -/
structure stts where
  atom : AtomInfo
  table : List (Int × Int)
deriving Repr, DecidableEq

/-- The `ctts` box (iso.py lines 506-524). -/
structure ctts where
  atom : AtomInfo
  table : List (Int × Int)
deriving Repr, DecidableEq

/-- The `stss` box (iso.py lines 526-543). -/
structure stss where
  atom : AtomInfo
  table : List Int
deriving Repr, DecidableEq

/-- The `stsz` box (iso.py lines 545-570). -/
structure stsz where
  atom : AtomInfo
  sample_size : Int
  table : List Int
deriving Repr, DecidableEq

/-- The `stz2` box (iso.py lines 631-683). -/
structure stz2 where
  atom : AtomInfo
  field_size : Int
  table : List Int
deriving Repr, DecidableEq

/-- The `stsc` box (iso.py lines 572-591). -/
structure stsc where
  atom : AtomInfo
  table : List (Int × Int × Int)
deriving Repr, DecidableEq

/-- The `stco` box (iso.py lines 593-610). -/
structure stco where
  atom : AtomInfo
  table : List Int
deriving Repr, DecidableEq

/-- The `co64` box (iso.py lines 612-629). -/
structure co64 where
  atom : AtomInfo
  table : List Int
deriving Repr, DecidableEq

/-- The `mvhd` box (iso.py lines 381-415). -/
structure mvhd where
  atom : AtomInfo
  timescale : Int
  duration : Int
deriving Repr, DecidableEq

/-- The `tkhd` box (iso.py lines 417-452). -/
structure tkhd where
  atom : AtomInfo
  duration : Int
  id : Int
deriving Repr, DecidableEq

/-- The `mdhd` box (iso.py lines 454-484). -/
structure mdhd where
  atom : AtomInfo
  timescale : Int
  duration : Int
deriving Repr, DecidableEq

/-- The `stbl` container (iso.py lines 833-847).  `select_children_atoms`
requires exactly one `stts` and one `stsc`; the rest are optional.
`extra` holds the serialized sizes of the children that the rewriter never
replaces (`stsd` and unknown atoms), written verbatim. -/
structure stbl where
  atom : AtomInfo
  stss : Option stss
  stsz : Option stsz
  stz2 : Option stz2
  stco : Option stco
  co64 : Option co64
  stts : stts
  ctts : Option ctts
  stsc : stsc
  extra : List Int
deriving Repr, DecidableEq

/-- The `minf` container (iso.py lines 849-856). -/
structure minf where
  atom : AtomInfo
  stbl : stbl
  extra : List Int
deriving Repr, DecidableEq

/-- The `mdia` container (iso.py lines 858-866). -/
structure mdia where
  atom : AtomInfo
  mdhd : mdhd
  minf : minf
  extra : List Int
deriving Repr, DecidableEq

/-- The `trak` container (iso.py lines 868-876). -/
structure trak where
  atom : AtomInfo
  tkhd : tkhd
  mdia : mdia
  extra : List Int
deriving Repr, DecidableEq

/-- The `moov` container (iso.py lines 878-886). -/
structure moov where
  atom : AtomInfo
  mvhd : mvhd
  trak : List trak
  extra : List Int
deriving Repr, DecidableEq

/-! ### Serialized sizes

`FullBox.tabled_size(body, loop)` (iso.py lines 125-128) is
`head_size_ext() + body + len(table) * loop`; `ContainerBox.get_size`
(iso.py lines 140-157) is `head_size_ext()` plus the sizes of all
children, with the rewriter's replacement boxes substituted for the
original child atoms. -/

def stts.get_size (b : stts) : Int := b.atom.head + 4 + 4 + 8 * b.table.length

def ctts.get_size (b : ctts) : Int := b.atom.head + 4 + 4 + 8 * b.table.length

def stss.get_size (b : stss) : Int := b.atom.head + 4 + 4 + 4 * b.table.length

/-- `stsz.get_size` (iso.py lines 559-562). -/
def stsz.get_size (b : stsz) : Int :=
  if b.sample_size ≠ 0 then b.atom.head + 4 + 8
  else b.atom.head + 4 + 8 + 4 * b.table.length

/-- `stz2.get_size` (iso.py lines 658-660): `int(...)` of the
float-valued `tabled_size(8, field_size / 8.0)`, i.e. the floor of
`head_size_ext() + 8 + len * field_size / 8`. -/
def stz2.get_size (b : stz2) : Int :=
  b.atom.head + 4 + 8 + ((b.table.length : Int) * b.field_size).fdiv 8

def stsc.get_size (b : stsc) : Int := b.atom.head + 4 + 4 + 12 * b.table.length

def stco.get_size (b : stco) : Int := b.atom.head + 4 + 4 + 4 * b.table.length

def co64.get_size (b : co64) : Int := b.atom.head + 4 + 4 + 8 * b.table.length

/-- `mvhd`, `tkhd` and `mdhd` do not override `Box.get_size`
(iso.py lines 95-97): their size is the source atom's size. -/
def mvhd.get_size (b : mvhd) : Int := b.atom.size

def tkhd.get_size (b : tkhd) : Int := b.atom.size

def mdhd.get_size (b : mdhd) : Int := b.atom.size

/-- Size contribution of an optional child box. -/
def osize {α : Type} (f : α → Int) : Option α → Int
  | none => 0
  | some b => f b

def stbl.get_size (b : stbl) : Int :=
  b.atom.head + osize stss.get_size b.stss + osize stsz.get_size b.stsz +
    osize stz2.get_size b.stz2 + osize stco.get_size b.stco +
    osize co64.get_size b.co64 + b.stts.get_size +
    osize ctts.get_size b.ctts + b.stsc.get_size + b.extra.sum

def minf.get_size (b : minf) : Int := b.atom.head + b.stbl.get_size + b.extra.sum

def mdia.get_size (b : mdia) : Int :=
  b.atom.head + b.mdhd.get_size + b.minf.get_size + b.extra.sum

def trak.get_size (b : trak) : Int :=
  b.atom.head + b.tkhd.get_size + b.mdia.get_size + b.extra.sum

def moov.get_size (b : moov) : Int :=
  b.atom.head + b.mvhd.get_size + (b.trak.map trak.get_size).sum + b.extra.sum

/-! ## Header rewriter -/

/-- Python 2's `int(round(x))`: rounding half away from zero.  The
reference computes in binary floats; we embed the exact rational
rounding. -/
def pyRound (q : Rat) : Int := if q < 0 then -⌊-q + 1 / 2⌋ else ⌊q + 1 / 2⌋

/-- `stbl.stco or stbl.co64` (iso.py lines 951 and 1048): the chunk-offset
table, from `stco` when present, else from `co64`; `none` is the
`AttributeError` when neither child exists. -/
def stbl.stco64_table (s : stbl) : Option (List Int) :=
  match s.stco with
  | some b => some b.table
  | none => s.co64.map co64.table

/-- `stbl.stsz or stbl.stz2` (iso.py line 1049): the sample-size table;
`none` when neither child exists. -/
def stbl.stsz2_table (s : stbl) : Option (List Int) :=
  match s.stsz with
  | some b => some b.table
  | none => s.stz2.map stz2.table

/-- `find_cut_trak_info(atrak, t)` (iso.py lines 940-955). -/
def find_cut_trak_info (atrak : trak) (t : Rat) : Option (Int × Int × Int × Int) := do
  let ts := atrak.mdia.mdhd.timescale
  let s := atrak.mdia.minf.stbl
  let mt := pyRound (t * (ts : Rat))
  let sample ← find_samplenum_stts s.stts.table mt
  let chunk ← find_chunknum_stsc s.stsc.table sample
  let stco64 ← s.stco64_table
  let chunk_offset ← get_chunk_offset stco64 chunk
  let zero_offset ← get_chunk_offset stco64 1
  some (sample, chunk, zero_offset, chunk_offset)

/-- `cut_trak(atrak, sample, data_offset_change)` (iso.py lines
1030-1096):  rebuilds the track's `stbl` cut at `sample`, replacing the
chunk-offset box on whichever of `stco`/`co64` is present, the
sample-size box on whichever of `stsz`/`stz2` is present, and `ctts` /
`stss` only when present. -/
def cut_trak (atrak : trak) (sample : Int) (data_offset_change : Int) : Option trak := do
  let s := atrak.mdia.minf.stbl
  let chunk ← find_chunknum_stsc s.stsc.table sample
  let media_time_diff := find_mediatime_stts s.stts.table sample
  let new_media_duration := atrak.mdia.mdhd.duration - media_time_diff
  let stco64_t ← s.stco64_table
  let stsz2_t ← s.stsz2_table
  let cut ← cut_stco64_stsc stco64_t s.stsc.table stsz2_t chunk sample data_offset_change
  let new_stsc : stsc := { s.stsc with table := cut.2 }
  let new_stts : stts := { s.stts with table := cut_sctts s.stts.table sample }
  let new_ctts := s.ctts.map (fun b => { b with table := cut_sctts b.table sample })
  let new_stss := s.stss.map (fun b => { b with table := cut_stss b.table sample })
  let s1 : stbl :=
    match s.stco with
    | some b => { s with stco := some { b with table := cut.1 } }
    | none =>
      match s.co64 with
      | some b => { s with co64 := some { b with table := cut.1 } }
      | none => s
  let s2 : stbl :=
    match s1.stsz with
    | some b => { s1 with stsz := some { b with table := cut_stsz2 b.table sample } }
    | none =>
      match s1.stz2 with
      | some b => { s1 with stz2 := some { b with table := cut_stsz2 b.table sample } }
      | none => s1
  let new_stbl : stbl :=
    { s2 with stts := new_stts, stsc := new_stsc, ctts := new_ctts, stss := new_stss }
  let new_mdhd : mdhd := { atrak.mdia.mdhd with duration := new_media_duration }
  let new_minf : minf := { atrak.mdia.minf with stbl := new_stbl }
  let new_mdia : mdia := { atrak.mdia with mdhd := new_mdhd, minf := new_minf }
  some { atrak with mdia := new_mdia }

/-- `update_offsets(atrak, data_offset_change)` (iso.py lines 1098-1112):
replaces the chunk-offset table by `cut_stco64(table, 1,
data_offset_change)`; `none` is the `AttributeError` when the track has
neither `stco` nor `co64`. -/
def update_offsets (atrak : trak) (data_offset_change : Int) : Option trak :=
  let s := atrak.mdia.minf.stbl
  match s.stco with
  | some b =>
    some { atrak with mdia := { atrak.mdia with minf := { atrak.mdia.minf with
      stbl := { s with stco := some { b with table := cut_stco64 b.table 1 data_offset_change 0 } } } } }
  | none =>
    match s.co64 with
    | some b =>
      some { atrak with mdia := { atrak.mdia with minf := { atrak.mdia.minf with
        stbl := { s with co64 := some { b with table := cut_stco64 b.table 1 data_offset_change 0 } } } } }
    | none => none

/-- `update_trak_duration` (iso.py lines 1142-1146): sets `tkhd.duration`
to `mdhd.duration * movie_timescale // mdhd.timescale`; `none` is the
`ZeroDivisionError` when the media timescale is zero. -/
def update_trak_duration (movie_ts : Int) (atrak : trak) : Option trak :=
  if atrak.mdia.mdhd.timescale = 0 then none
  else some { atrak with tkhd := { atrak.tkhd with
    duration := (atrak.mdia.mdhd.duration * movie_ts).fdiv atrak.mdia.mdhd.timescale } }

/-- Python's `min(list)`; `none` is the `ValueError` on an empty list. -/
def listMin : List Int → Option Int
  | [] => none
  | x :: xs => some (xs.foldl min x)

/-- `cut_moov(amoov, t)` (iso.py lines 1114-1153).  Raises (`.error`)
when `t * timescale >= duration`; any exception on the success path
(`ZeroDivisionError`, `IndexError`, `AttributeError` from the table
walks) is `.error "exception"`.  The in-place `update_trak_duration` /
`update_offsets` passes are applied before assembling the result; they do
not change any box's serialized size, so `moov_size_diff` is computed on
the intermediate tree exactly as in the source. -/
def cut_moov (amoov : moov) (t : Rat) : Except String (moov × Int × Int) :=
  let ts := amoov.mvhd.timescale
  let duration := amoov.mvhd.duration
  if (duration : Rat) ≤ t * (ts : Rat) then .error "Exceeded file duration"
  else
    match (do
      let traks := amoov.trak
      let cut_info ← traks.mapM (fun a => find_cut_trak_info a t)
      let new_data_offset ← listMin (cut_info.map (fun ci => ci.2.2.2))
      let zero_offset ← listMin (cut_info.map (fun ci => ci.2.2.1))
      let new_traks ← (traks.zip cut_info).mapM
        (fun p => cut_trak p.1 p.2.1 (new_data_offset - zero_offset))
      let new_moov0 : moov := { amoov with trak := new_traks }
      let moov_size_diff := amoov.get_size - new_moov0.get_size
      let new_traks2 ← new_traks.mapM (update_trak_duration ts)
      let new_traks3 ← new_traks2.mapM (fun a => update_offsets a moov_size_diff)
      some ({ amoov with trak := new_traks3 },
            new_data_offset - zero_offset, new_data_offset) : Option _) with
    | some r => .ok r
    | none => .error "exception"

/-! ## Sync-point selector -/

/-- `find_sync_samples` (iso.py lines 1231-1238): a track with no `stss`
contributes nothing; otherwise its sync-sample numbers are converted to
media times and divided by the media timescale.  The reference divides
floats; we embed exact rationals (`mt / 0.0` would raise in Python, while
`/ 0 = 0` here; all claims assume positive timescales). -/
def find_sync_samples (a : trak) : List Rat :=
  match a.mdia.minf.stbl.stss with
  | none => []
  | some st =>
    (find_mediatimes a.mdia.minf.stbl.stts.table st.table).map
      (fun mt : Int => (mt : Rat) / (a.mdia.mdhd.timescale : Rat))

/-- `find_sync_points(amoov)` (iso.py lines 1228-1244): the first
nonempty per-track sync table. -/
def find_sync_points (amoov : moov) : List Rat :=
  let sync_tables := (amoov.trak.map find_sync_samples).filter (fun t => t ≠ [])
  match sync_tables with
  | [] => []
  | t0 :: _ => t0

/-- The scan loop of `find_nearest_syncpoint` (iso.py lines 1254-1260):
`found` is the last sync `<= t`, `other` the first `> t` (0 when the loop
never breaks). -/
def fnsLoop : List Rat → Rat → Rat → Rat × Rat
  | [], _, found => (found, 0)
  | ss :: rest, t, found => if ss > t then (found, ss) else fnsLoop rest t ss

/-- `find_nearest_syncpoint(amoov, t)` (iso.py lines 1246-1263).  With no
sync points, clamps `t` to `[0, duration/timescale - 0.1]` (the
reference's `0.1` is a binary float; no claim depends on its exact
value). -/
def find_nearest_syncpoint (amoov : moov) (t : Rat) : Rat :=
  let syncs := find_sync_points amoov
  match syncs with
  | [] =>
    let max_ts : Rat :=
      (amoov.mvhd.duration : Rat) / (amoov.mvhd.timescale : Rat) - 1 / 10
    max 0 (min t max_ts)
  | _ :: _ =>
    let p := fnsLoop syncs t 0
    if |t - p.1| < |p.2 - t| then p.1 else p.2

/-! ## Split emitter

Modelled from the spec: `read_iso_file` and the byte-level atom
reader/writer live in the repository's missing `atoms.py`.  A top-level
atom is represented by its parsed fields, and a write to the output sink
by a `WriteEvt` (one event per `write_*` call / verbatim atom copy), so
"bytes written" is "events emitted". -/

structure FAtom where
  type : String
  offset : Int
  size : Int
  head : Int
  real_size : Int
deriving Repr, DecidableEq

/-- `find_atom(alist, type)` (iso.py lines 242-243): index of the first
atom of the given type; `none` is the `ValueError` when there is none. -/
def find_atom (alist : List FAtom) (ty : String) : Option Nat :=
  List.findIdx? (fun a => a.type = ty) alist

/-- One write to the output sink. -/
inductive WriteEvt
  | atomW (ty : String) (size : Int)
  | moovW (size : Int)
  | ulongW (n : Int)
  | fccW (s : String)
  | ulonglongW (n : Int)
deriving Repr, DecidableEq

/-- The loop of `update_mdat_atoms` (iso.py lines 1166-1183), carrying
`to_remove` and `pos`. -/
def update_mdat_loop : List FAtom → Int → Int → List FAtom
  | [], _, _ => []
  | a :: rest, to_remove, pos =>
    let data_size := a.size - a.head
    let size_change := min data_size to_remove
    let to_remove2 := if size_change > 0 then to_remove - size_change else to_remove
    let new_size := a.size - size_change
    let real_size := if a.real_size = 1 then 1 else new_size
    let ua : FAtom := ⟨"mdat", pos, new_size, a.head, real_size⟩
    if to_remove2 = 0 then [ua]
    else ua :: update_mdat_loop rest to_remove2 (pos + new_size)

/-- `update_mdat_atoms(alist, size_delta)` (iso.py lines 1166-1183);
`none` is the `IndexError` of `alist[0]` on an empty list. -/
def update_mdat_atoms (alist : List FAtom) (size_delta : Int) : Option (List FAtom) :=
  match alist with
  | [] => none
  | a0 :: _ => some (update_mdat_loop alist size_delta a0.offset)

/-- The three head writes for one rewritten `mdat` (iso.py lines
1203-1207). -/
def mdat_head_events (a : FAtom) : List WriteEvt :=
  WriteEvt.ulongW a.real_size :: WriteEvt.fccW a.type ::
    (if a.real_size = 1 then [WriteEvt.ulonglongW a.size] else [])

/-- `write_split_header(out_f, amoov, alist, size_delta)` (iso.py lines
1185-1207).  `none` is a raised `ValueError` / `FormatError` /
`IndexError`; all of them occur before the first write.  The rewritten
`moov` replaces the original `moov` atom in the list and is serialized
with its computed size. -/
def write_split_header (amoov_size : Int) (alist : List FAtom) (size_delta : Int) :
    Option (List WriteEvt) := do
  let moov_idx ← find_atom alist "moov"
  let mdat_idx ← find_atom alist "mdat"
  let mdat ← alist.get? mdat_idx
  let cut_offset := mdat.offset + mdat.head + size_delta
  let to_update := (alist.drop mdat_idx).filter (fun a => a.offset < cut_offset)
  if to_update.filter (fun a => a.type ≠ "mdat") ≠ [] then none
  else do
    let updated_mdats ← update_mdat_atoms to_update size_delta
    let evs1 := (alist.take mdat_idx).enum.map
      (fun p => if p.1 = moov_idx then WriteEvt.moovW amoov_size
                else WriteEvt.atomW p.2.type p.2.size)
    some (evs1 ++ (updated_mdats.map mdat_head_events).flatten)

/-- `split_atoms(f, out_f, t)` (iso.py lines 1156-1164) on the parsed
file `(amoov, alist)`: snap `t` to the nearest sync point, cut the movie
header, then emit the split header.  The result pairs the writes that
reached the sink with the outcome; every failure happens before the first
write, so a failing split has written nothing. -/
def split_atoms (amoov : moov) (alist : List FAtom) (t : Rat) :
    List WriteEvt × Except String Int :=
  let t2 := find_nearest_syncpoint amoov t
  match cut_moov amoov t2 with
  | .error e => ([], .error e)
  | .ok (nmoov, delta, new_offset) =>
    match write_split_header nmoov.get_size alist delta with
    | none => ([], .error "FormatError")
    | some evs => (evs, .ok new_offset)

/-! ## Faststart -/

/-- Python's `l[i:i] = [x]` insertion at a possibly negative index. -/
def pyInsertAt (l : List FAtom) (i : Int) (x : FAtom) : List FAtom :=
  List.insertIdx (pyIdx l.length i) x l

/-- Result of `move_header_to_front` (iso.py lines 1291-1322): `err` is a
raised exception (`ValueError` from `find_atom`, or `AttributeError` from
`change_chunk_offsets` on a track with no chunk-offset box),
`nothingToDo` is the `None` return when `moov` already precedes `mdat`,
and `moved` carries the reordered atom list together with the `moov` tree
whose chunk offsets were shifted by `moov.get_size`. -/
inductive MhtfResult
  | err
  | nothingToDo
  | moved (alist2 : List FAtom) (amoov2 : moov)
deriving Repr, DecidableEq

/-- `change_chunk_offsets(amoov, data_offset)` (iso.py lines 1282-1289):
`update_offsets(a, -data_offset)` on every track. -/
def change_chunk_offsets (amoov : moov) (data_offset : Int) : Option moov := do
  let traks ← amoov.trak.mapM (fun a => update_offsets a (-data_offset))
  some { amoov with trak := traks }

/-- `move_header_to_front(f)` (iso.py lines 1291-1322) on the parsed file
`(amoov, alist)`. -/
def move_header_to_front (amoov : moov) (alist : List FAtom) : MhtfResult :=
  match find_atom alist "moov", find_atom alist "mdat" with
  | some moov_idx, some mdat_idx =>
    if moov_idx < mdat_idx then .nothingToDo
    else
      match alist.get? mdat_idx, alist.get? moov_idx with
      | some mdat, some moov_atom =>
        let new_moov_idx : Int :=
          if alist.any (fun w => w.type = "wide" ∧ w.offset + w.size = mdat.offset)
          then (mdat_idx : Int) - 1 else (mdat_idx : Int)
        match change_chunk_offsets amoov amoov.get_size with
        | none => .err
        | some amoov2 =>
          .moved (pyInsertAt (alist.eraseIdx moov_idx) new_moov_idx moov_atom) amoov2
      | _, _ => .err
  | _, _ => .err

/-- `move_header_and_write(in_f, out_f)` (iso.py lines 1324-1329): `true`
plus the written atom list when the header moved, `false` and no writes
otherwise (including Python's falsy empty list); `none` is a propagated
exception. -/
def move_header_and_write (amoov : moov) (alist : List FAtom) :
    Option (Bool × List FAtom) :=
  match move_header_to_front amoov alist with
  | .err => none
  | .nothingToDo => some (false, [])
  | .moved l2 _ => if l2 = [] then some (false, []) else some (true, l2)

/-! ## Arithmetic lemmas about the `stts` walks -/

lemma durStts_cons (c d : Int) (rest : List (Int × Int)) :
    durStts ((c, d) :: rest) = c * d + durStts rest := by
  simp [durStts]

lemma sumCounts_cons (c d : Int) (rest : List (Int × Int)) :
    sumCounts ((c, d) :: rest) = c + sumCounts rest := by
  simp [sumCounts]

lemma durStts_nonneg {l : List (Int × Int)} (h : SttsWF l) : 0 ≤ durStts l := by
  induction l with
  | nil => simp [durStts]
  | cons hd rest ih =>
    obtain ⟨c, d⟩ := hd
    have hc := h (c, d) (List.mem_cons_self _ _)
    rw [durStts_cons]
    have : 0 ≤ c * d := mul_nonneg hc.1.le hc.2.le
    have := ih (fun p hp => h p (List.mem_cons_of_mem _ hp))
    omega

lemma sumCounts_nonneg {l : List (Int × Int)} (h : SttsWF l) : 0 ≤ sumCounts l := by
  induction l with
  | nil => simp [sumCounts]
  | cons hd rest ih =>
    obtain ⟨c, d⟩ := hd
    have hc := h (c, d) (List.mem_cons_self _ _)
    rw [sumCounts_cons]
    have := ih (fun p hp => h p (List.mem_cons_of_mem _ hp))
    omega

/-- For a positive divisor, `pyCeilDiv a d * d` is the least multiple of
`d` that is `≥ a`. -/
lemma pyCeilDiv_bounds (a : Int) {d : Int} (hd : 0 < d) :
    a ≤ pyCeilDiv a d * d ∧ pyCeilDiv a d * d < a + d := by
  have hne : d ≠ 0 := hd.ne'
  have hfd : (-a).fdiv d = (-a) / d := Int.fdiv_eq_ediv _ hd.le
  have hdm := Int.ediv_add_emod (-a) d
  have hr0 : 0 ≤ (-a) % d := Int.emod_nonneg _ hne
  have hrd : (-a) % d < d := Int.emod_lt_of_pos _ hd
  unfold pyCeilDiv
  rw [hfd]
  constructor <;> nlinarith [hdm]

/-- The sample counter of the `find_samplenum_stts` walk never decreases. -/
lemma fsAux_ge {l : List (Int × Int)} :
    ∀ (ctime samples mt s : Int), SttsWF l → ctime ≤ mt →
      fsAux l mt ctime samples = some s → samples ≤ s := by
  induction l with
  | nil => intro ctime samples mt s _ _ h; simp [fsAux] at h; omega
  | cons hd rest ih =>
    obtain ⟨c, d⟩ := hd
    intro ctime samples mt s hwf hle h
    have hc1 : 0 < c := (hwf (c, d) (List.mem_cons_self _ _)).1
    have hc2 : 0 < d := (hwf (c, d) (List.mem_cons_self _ _)).2
    have hwr : SttsWF rest := fun p hp => hwf p (List.mem_cons_of_mem _ hp)
    rw [fsAux] at h
    by_cases h1 : mt = ctime
    · simp [h1] at h; omega
    · simp only [if_neg h1] at h
      by_cases h2 : mt < ctime + c * d
      · simp only [if_pos h2, if_neg hc2.ne'] at h
        have hq : 0 < mt - ctime := by omega
        have hb := pyCeilDiv_bounds (mt - ctime) hc2
        have : 0 ≤ pyCeilDiv (mt - ctime) d := by nlinarith [hb.1]
        rw [Option.some_inj] at h
        omega
      · simp only [if_neg h2] at h
        have := ih (ctime + c * d) (samples + c) mt s hwr (by omega) h
        omega

/-- Past the end of the table, `find_samplenum_stts` returns the sample
counter plus all the run counts. -/
lemma fsAux_beyond {l : List (Int × Int)} :
    ∀ (ctime samples mt : Int), SttsWF l → ctime + durStts l ≤ mt →
      fsAux l mt ctime samples = some (samples + sumCounts l) := by
  induction l with
  | nil => intro ctime samples mt _ _; simp [fsAux, sumCounts]
  | cons hd rest ih =>
    obtain ⟨c, d⟩ := hd
    intro ctime samples mt hwf hle
    have hc1 : 0 < c := (hwf (c, d) (List.mem_cons_self _ _)).1
    have hc2 : 0 < d := (hwf (c, d) (List.mem_cons_self _ _)).2
    have hwr : SttsWF rest := fun p hp => hwf p (List.mem_cons_of_mem _ hp)
    have hdr : 0 ≤ durStts rest := durStts_nonneg hwr
    rw [durStts_cons] at hle
    have hcd : 0 < c * d := mul_pos hc1 hc2
    rw [fsAux]
    have h1 : ¬ mt = ctime := by omega
    have h2 : ¬ mt < ctime + c * d := by omega
    rw [if_neg h1, if_neg h2, ih (ctime + c * d) (samples + c) mt hwr (by omega)]
    rw [sumCounts_cons]
    ring_nf

/-- The media time returned by the `find_mediatime_stts` walk is at least
the accumulated `ctime`, for any sample at or past the counter. -/
lemma fmAux_ge {l : List (Int × Int)} :
    ∀ (ctime samples s : Int), (∀ p ∈ l, 0 ≤ p.1 ∧ 0 ≤ p.2) → samples ≤ s →
      ctime ≤ fmAux l s ctime samples := by
  induction l with
  | nil => intro ctime samples s _ _; simp [fmAux]
  | cons hd rest ih =>
    obtain ⟨c, d⟩ := hd
    intro ctime samples s hwf hle
    have hc1 : 0 ≤ c := (hwf (c, d) (List.mem_cons_self _ _)).1
    have hc2 : 0 ≤ d := (hwf (c, d) (List.mem_cons_self _ _)).2
    have hwr : ∀ p ∈ rest, 0 ≤ p.1 ∧ 0 ≤ p.2 :=
      fun p hp => hwf p (List.mem_cons_of_mem _ hp)
    rw [fmAux]
    by_cases h1 : s ≤ samples + c
    · rw [if_pos h1]
      nlinarith
    · rw [if_neg h1]
      have := ih (ctime + c * d) (samples + c) s hwr (by omega)
      nlinarith

/-- Walking `find_mediatime_stts` past a fully consumed first run. -/
lemma fmAux_cons_ge {rest : List (Int × Int)} {c d ctime samples s : Int}
    (hr : ∀ p ∈ rest, 0 ≤ p.1) (hle : samples + c ≤ s) :
    fmAux ((c, d) :: rest) s ctime samples = fmAux rest s (ctime + c * d) (samples + c) := by
  rw [fmAux]
  by_cases h1 : s ≤ samples + c
  · have hs : s = samples + c := le_antisymm h1 hle
    rw [if_pos h1]
    cases rest with
    | nil => simp [fmAux, hs]
    | cons hd2 r2 =>
      obtain ⟨c2, d2⟩ := hd2
      have hc2 : 0 ≤ c2 := hr (c2, d2) (List.mem_cons_self _ _)
      rw [fmAux, if_pos (by omega)]
      rw [hs]
      ring_nf
  · rw [if_neg h1]

/-- Main bracketing lemma: for a well-formed table and a media time inside
the remaining duration, the sample returned by the `find_samplenum_stts`
walk has media time `≥ mt` and the next sample has media time `> mt`. -/
lemma fsfm_main {l : List (Int × Int)} :
    ∀ (ctime samples mt : Int), SttsWF l → ctime ≤ mt → mt < ctime + durStts l →
      ∃ s, fsAux l mt ctime samples = some s ∧
        mt ≤ fmAux l s ctime samples ∧ mt < fmAux l (s + 1) ctime samples := by
  induction l with
  | nil =>
    intro ctime samples mt _ hle hlt
    rw [durStts] at hlt; simp at hlt; omega
  | cons hd rest ih =>
    obtain ⟨c, d⟩ := hd
    intro ctime samples mt hwf hle hlt
    have hc1 : 0 < c := (hwf (c, d) (List.mem_cons_self _ _)).1
    have hc2 : 0 < d := (hwf (c, d) (List.mem_cons_self _ _)).2
    have hwr : SttsWF rest := fun p hp => hwf p (List.mem_cons_of_mem _ hp)
    have hwr0 : ∀ p ∈ rest, 0 ≤ p.1 ∧ 0 ≤ p.2 := fun p hp => ⟨(hwr p hp).1.le, (hwr p hp).2.le⟩
    rw [durStts_cons] at hlt
    by_cases h1 : mt = ctime
    · refine ⟨samples, ?_, ?_, ?_⟩
      · rw [fsAux, if_pos h1]
      · rw [fmAux, if_pos (by omega), h1]; nlinarith
      · rw [fmAux, if_pos (by omega : samples + 1 ≤ samples + c)]
        have : (samples + 1 - samples) * d = d := by ring
        rw [this]; omega
    · by_cases h2 : mt < ctime + c * d
      · set k := pyCeilDiv (mt - ctime) d with hk
        have hb := pyCeilDiv_bounds (mt - ctime) hc2
        rw [← hk] at hb
        have hq : 0 < mt - ctime := by omega
        have hk1 : 1 ≤ k := by nlinarith [hb.1]
        have hkc : k ≤ c := by nlinarith [hb.2]
        refine ⟨samples + k, ?_, ?_, ?_⟩
        · rw [fsAux, if_neg h1, if_pos h2, if_neg hc2.ne']
        · rw [fmAux, if_pos (by omega)]
          have : (samples + k - samples) * d = k * d := by ring
          rw [this]; omega
        · by_cases h3 : k < c
          · rw [fmAux, if_pos (by omega)]
            have : (samples + k + 1 - samples) * d = k * d + d := by ring
            rw [this]; omega
          · have hkc2 : k = c := by omega
            rw [fmAux, if_neg (by omega)]
            have := fmAux_ge (ctime + c * d) (samples + c) (samples + k + 1) hwr0 (by omega)
            omega
      · obtain ⟨s, hs, hm1, hm2⟩ := ih (ctime + c * d) (samples + c) mt hwr
          (by omega) (by omega)
        have hsge : samples + c ≤ s := fsAux_ge _ _ _ _ hwr (by omega) hs
        refine ⟨s, ?_, ?_, ?_⟩
        · rw [fsAux, if_neg h1, if_neg h2]; exact hs
        · rw [fmAux_cons_ge (fun p hp => (hwr0 p hp).1) hsge]; exact hm1
        · rw [fmAux_cons_ge (fun p hp => (hwr0 p hp).1) (by omega)]; exact hm2

/-- Tie at the boundary of run `i`: the walk returns the run's first
sample, i.e. the counter plus the counts of the previous runs. -/
lemma fsAux_boundary {l : List (Int × Int)} :
    ∀ (i : Nat) (ctime samples : Int), SttsWF l → i < l.length →
      fsAux l (ctime + durStts (l.take i)) ctime samples =
        some (samples + sumCounts (l.take i)) := by
  induction l with
  | nil => intro i _ _ _ hi; simp at hi
  | cons hd rest ih =>
    obtain ⟨c, d⟩ := hd
    intro i ctime samples hwf hi
    have hc1 : 0 < c := (hwf (c, d) (List.mem_cons_self _ _)).1
    have hc2 : 0 < d := (hwf (c, d) (List.mem_cons_self _ _)).2
    have hwr : SttsWF rest := fun p hp => hwf p (List.mem_cons_of_mem _ hp)
    cases i with
    | zero => simp [fsAux, durStts, sumCounts]
    | succ i =>
      have hwt : SttsWF (rest.take i) :=
        fun p hp => hwr p (List.mem_of_mem_take hp)
      have hdt : 0 ≤ durStts (rest.take i) := durStts_nonneg hwt
      have hcd : 0 < c * d := mul_pos hc1 hc2
      rw [List.take_succ_cons, durStts_cons, sumCounts_cons, fsAux]
      rw [if_neg (by omega), if_neg (by omega)]
      have := ih i (ctime + c * d) (samples + c) hwr (by simpa using hi)
      rw [show ctime + (c * d + durStts (rest.take i)) =
            ctime + c * d + durStts (rest.take i) by ring, this]
      congr 1
      ring

/-- Strictly inside run `i`: the walk returns the counter plus the counts
of the previous runs plus the ceiling of the offset into the run. -/
lemma fsAux_inside {l : List (Int × Int)} :
    ∀ (i : Nat) (ctime samples mt : Int) (hwf : SttsWF l) (hi : i < l.length),
      ctime + durStts (l.take i) < mt → mt < ctime + durStts (l.take (i + 1)) →
      fsAux l mt ctime samples =
        some (samples + sumCounts (l.take i) +
          pyCeilDiv (mt - (ctime + durStts (l.take i))) (l.get ⟨i, hi⟩).2) := by
  induction l with
  | nil => intro i _ _ _ _ hi; simp at hi
  | cons hd rest ih =>
    obtain ⟨c, d⟩ := hd
    intro i ctime samples mt hwf hi hlo hhi
    have hc1 : 0 < c := (hwf (c, d) (List.mem_cons_self _ _)).1
    have hc2 : 0 < d := (hwf (c, d) (List.mem_cons_self _ _)).2
    have hwr : SttsWF rest := fun p hp => hwf p (List.mem_cons_of_mem _ hp)
    cases i with
    | zero =>
      simp only [List.take_zero, durStts, List.map_nil, List.sum_nil, add_zero] at hlo
      rw [List.take_succ_cons, List.take_zero, durStts_cons] at hhi
      simp only [durStts, List.map_nil, List.sum_nil, add_zero] at hhi
      rw [fsAux, if_neg (by omega), if_pos (by omega), if_neg hc2.ne']
      simp [durStts, sumCounts]
    | succ i =>
      have hwt : SttsWF (rest.take i) :=
        fun p hp => hwr p (List.mem_of_mem_take hp)
      have hdt : 0 ≤ durStts (rest.take i) := durStts_nonneg hwt
      have hcd : 0 < c * d := mul_pos hc1 hc2
      rw [List.take_succ_cons, durStts_cons] at hlo hhi
      rw [List.take_succ_cons, durStts_cons, sumCounts_cons]
      rw [fsAux, if_neg (by omega), if_neg (by omega)]
      have := ih i (ctime + c * d) (samples + c) mt hwr (by simpa using hi)
        (by rw [show ctime + c * d + durStts (rest.take i) =
              ctime + (c * d + durStts (rest.take i)) by ring]; exact hlo)
        (by rw [show ctime + c * d + durStts (rest.take (i + 1)) =
              ctime + (c * d + durStts (rest.take (i + 1))) by ring]
            exact hhi)
      rw [this]
      congr 2
      · ring
      · congr 1
        ring

/-- Sum of the run counts of a cut `stts`/`ctts` table: cutting at
`sample` inside the table leaves `samples + sumCounts - sample` samples,
where `samples` is the walk's counter. -/
lemma csAux_sumCounts {l : List (Int × Int)} :
    ∀ (sample samples : Int), samples ≤ sample → sample < samples + sumCounts l →
      sumCounts (csAux l sample samples) = samples + sumCounts l - sample := by
  induction l with
  | nil =>
    intro sample samples hle hlt
    rw [sumCounts] at hlt; simp at hlt; omega
  | cons hd rest ih =>
    obtain ⟨c, d⟩ := hd
    intro sample samples hle hlt
    rw [sumCounts_cons] at hlt ⊢
    rw [csAux]
    by_cases h1 : samples + c > sample
    · rw [if_pos h1, sumCounts_cons]
      ring
    · rw [if_neg h1]
      have := ih sample (samples + c) (by omega) (by omega)
      rw [this]
      ring

/-- Once the `find_chunknum_stsc` walk has a positive `per_chunk`, it
always returns a chunk. -/
lemma fcAux_total_of_pos {l : List (Int × Int × Int)} :
    ∀ (sample_num current per_chunk samples : Int), 0 < per_chunk →
      (∀ r ∈ l, 0 < r.2.1) →
      ∃ chunk, fcAux l sample_num current per_chunk samples = some chunk := by
  induction l with
  | nil =>
    intro sample_num current per_chunk samples hpc _
    exact ⟨_, by rw [fcAux, if_neg hpc.ne']⟩
  | cons hd rest ih =>
    obtain ⟨next, npc, nsd⟩ := hd
    intro sample_num current per_chunk samples hpc hall
    have hnpc : 0 < npc := hall (next, npc, nsd) (List.mem_cons_self _ _)
    have hrest : ∀ r ∈ rest, 0 < r.2.1 :=
      fun r hr => hall r (List.mem_cons_of_mem _ hr)
    by_cases h1 : samples + (next - current) * per_chunk > sample_num
    · exact ⟨(sample_num - samples).fdiv per_chunk + current,
        by rw [fcAux]; simp only [if_pos h1, if_neg hpc.ne']⟩
    · rw [fcAux]
      simp only [if_neg h1]
      exact ih _ _ _ _ hnpc hrest

/-! ## Sync-point lemmas -/

/-- Every media time produced by the `find_mediatimes` walk is
nonnegative, provided the run table has nonnegative counts and deltas,
the accumulated time is nonnegative, and the (sorted) sample numbers all
lie at or past the accumulated sample counter. -/
lemma fmsAux_nonneg :
    ∀ (stts : List (Int × Int)) (samples : List Int) (ctime total : Int),
      (∀ p ∈ stts, 0 ≤ p.1 ∧ 0 ≤ p.2) → 0 ≤ ctime →
      samples.Pairwise (· ≤ ·) → (∀ s ∈ samples, total ≤ s) →
      ∀ x ∈ fmsAux stts samples ctime total, 0 ≤ x := by
  intro stts samples ctime total
  induction stts, samples, ctime, total using fmsAux.induct with
  | case1 stts ctime total =>
    intro _ _ _ _ x hx; simp only [fmsAux] at hx; simp at hx
  | case2 s srest ctime total =>
    intro _ _ _ _ x hx; simp only [fmsAux] at hx; simp at hx
  | case3 count delta rest sample srest ctime total hcond ih =>
    intro hwf hct hpw hall x hx
    simp only [fmsAux, if_pos hcond] at hx
    have hd : 0 ≤ delta := (hwf (count, delta) (List.mem_cons_self _ _)).2
    obtain ⟨hhead, hpw2⟩ := List.pairwise_cons.mp hpw
    rcases List.mem_cons.mp hx with rfl | hx2
    · have hts : total ≤ sample := hall sample (List.mem_cons_self _ _)
      nlinarith
    · exact ih hwf hct hpw2
        (fun s hs => le_trans (hall sample (List.mem_cons_self _ _)) (hhead s hs)) x hx2
  | case4 count delta rest sample srest ctime total hcond ih =>
    intro hwf hct hpw hall x hx
    simp only [fmsAux, if_neg hcond] at hx
    have hc : 0 ≤ count := (hwf (count, delta) (List.mem_cons_self _ _)).1
    have hd : 0 ≤ delta := (hwf (count, delta) (List.mem_cons_self _ _)).2
    obtain ⟨hhead, hpw2⟩ := List.pairwise_cons.mp hpw
    refine ih (fun p hp => hwf p (List.mem_cons_of_mem _ hp)) (by nlinarith) hpw ?_ x hx
    intro s hs
    rcases List.mem_cons.mp hs with rfl | hs2
    · omega
    · have := hhead s hs2
      have := hall sample (List.mem_cons_self _ _)
      omega

/-- Well-formedness of an optional `stss` box: sorted 1-based sample
numbers. -/
def StssWF : Option stss → Prop
  | none => True
  | some st => st.table.Pairwise (· ≤ ·) ∧ ∀ s ∈ st.table, 1 ≤ s

instance : (o : Option stss) → Decidable (StssWF o)
  | none => isTrue trivial
  | some st => by unfold StssWF; infer_instance

/-- Well-formedness of a parsed track, as needed by the sync-point
claims: positive media timescale, nonnegative `stts` entries, and a
sorted 1-based `stss` table when present. -/
def TrakWF (a : trak) : Prop :=
  0 < a.mdia.mdhd.timescale ∧
  (∀ p ∈ a.mdia.minf.stbl.stts.table, 0 ≤ p.1 ∧ 0 ≤ p.2) ∧
  StssWF a.mdia.minf.stbl.stss

instance (a : trak) : Decidable (TrakWF a) := by
  unfold TrakWF; infer_instance

lemma find_sync_samples_nonneg (a : trak) (h : TrakWF a) :
    ∀ x ∈ find_sync_samples a, 0 ≤ x := by
  unfold find_sync_samples
  cases hst : a.mdia.minf.stbl.stss with
  | none => simp
  | some st =>
    intro x hx
    simp only [List.mem_map] at hx
    obtain ⟨mt, hmt, rfl⟩ := hx
    have hwf := h.2.2
    rw [hst] at hwf
    have hnn := fmsAux_nonneg a.mdia.minf.stbl.stts.table st.table 0 1
      h.2.1 le_rfl hwf.1 hwf.2 mt hmt
    have hts : (0 : Rat) ≤ (a.mdia.mdhd.timescale : Rat) := by exact_mod_cast h.1.le
    exact div_nonneg (by exact_mod_cast hnn) hts

lemma find_sync_points_nonneg (amoov : moov) (h : ∀ a ∈ amoov.trak, TrakWF a) :
    ∀ x ∈ find_sync_points amoov, 0 ≤ x := by
  unfold find_sync_points
  cases hc : (amoov.trak.map find_sync_samples).filter (fun t => t ≠ []) with
  | nil => simp
  | cons t0 ts =>
    intro x hx
    have ht0 : t0 ∈ (amoov.trak.map find_sync_samples).filter (fun t => t ≠ []) := by
      rw [hc]; exact List.mem_cons_self _ _
    have := List.mem_of_mem_filter ht0
    simp only [List.mem_map] at this
    obtain ⟨a, ha, rfl⟩ := this
    exact find_sync_samples_nonneg a (h a ha) x hx

/-- For `t ≤ 0` and nonnegative sync times, the scan loop keeps
`found = 0` and returns a nonnegative `other`. -/
lemma fnsLoop_nonpos {t : Rat} (ht : t ≤ 0) :
    ∀ {syncs : List Rat}, (∀ s ∈ syncs, 0 ≤ s) →
      (fnsLoop syncs t 0).1 = 0 ∧ 0 ≤ (fnsLoop syncs t 0).2 := by
  intro syncs
  induction syncs with
  | nil => intro _; simp [fnsLoop]
  | cons ss rest ih =>
    intro hnn
    have hss : 0 ≤ ss := hnn ss (List.mem_cons_self _ _)
    rw [fnsLoop]
    by_cases h1 : ss > t
    · rw [if_pos h1]; exact ⟨rfl, hss⟩
    · rw [if_neg h1]
      have hss0 : ss = 0 := le_antisymm (le_trans (not_lt.mp h1) ht) hss
      rw [hss0]
      exact ih (fun s hs => hnn s (List.mem_cons_of_mem _ hs))

/-! ## Concrete instances used by the claims -/

/-- Sample-table boxes of a track whose only sync sample is sample 2. -/
def c8stbl : stbl :=
  { atom := ⟨122, 8⟩,
    stss := some { atom := ⟨20, 8⟩, table := [2] },
    stsz := some { atom := ⟨40, 8⟩, sample_size := 0, table := [50, 50, 50, 50, 50] },
    stz2 := none,
    stco := some { atom := ⟨20, 8⟩, table := [300] },
    co64 := none,
    stts := { atom := ⟨24, 8⟩, table := [(5, 2)] },
    ctts := none,
    stsc := { atom := ⟨28, 8⟩, table := [(1, 5, 1)] },
    extra := [] }

def c8minf : minf := { atom := ⟨130, 8⟩, stbl := c8stbl, extra := [] }

def c8mdhd : mdhd := { atom := ⟨32, 8⟩, timescale := 1, duration := 10 }

def c8mdia : mdia := { atom := ⟨170, 8⟩, mdhd := c8mdhd, minf := c8minf, extra := [] }

def c8tkhd : tkhd := { atom := ⟨92, 8⟩, duration := 10, id := 1 }

def c8trak : trak := { atom := ⟨270, 8⟩, tkhd := c8tkhd, mdia := c8mdia, extra := [] }

def c8mvhd : mvhd := { atom := ⟨108, 8⟩, timescale := 1, duration := 10 }

/-- A movie whose first (and only) sync point is at media time 2. -/
def c8moov : moov := { atom := ⟨386, 8⟩, mvhd := c8mvhd, trak := [c8trak], extra := [] }

/-! ## Claim theorems -/

/-- C1.  A constant-sample-size track parses to an empty per-sample
table (`stsz.read`), so on a cut landing strictly inside a chunk
(`lead_samples = 2 > 0` here) `cut_stco64_stsc` adds
`sum([]) = 0` lead bytes to the first chunk offset — not
`lead_samples * sample_size`.  With `stsc = [(1,4,1)]`, cut sample 7 in
chunk 2 and `sample_size = 100`, the first new offset stays `2000`
instead of the `2000 + 2 * 100` the specification requires. -/
theorem constant_size_cut_adds_no_lead_bytes :
    stsz_read_table 100 [70, 70, 70, 70, 70, 70, 70] = [] ∧
    cut_stco64_stsc [1000, 2000, 3000] [(1, 4, 1)]
        (stsz_read_table 100 [70, 70, 70, 70, 70, 70, 70]) 2 7 0 =
      some ([2000, 3000], [(1, 2, 1), (2, 4, 1)]) ∧
    (2000 : Int) ≠ 2000 + 2 * 100 := by
  refine ⟨by decide, by decide, by decide⟩

/-- C2 counterexample.  For `stts = [(2,10)]` and `mt = 5` (strictly
inside sample 1), `find_samplenum_stts` rounds up to sample 2 whose media
time is 10, so `find_mediatime_stts(stts, find_samplenum_stts(stts, mt))`
is 10, which is not `≤ mt = 5`. -/
theorem samplenum_mediatime_le_counterexample :
    find_samplenum_stts [(2, 10)] 5 = some 2 ∧
    find_mediatime_stts [(2, 10)] 2 = 10 ∧ ¬ ((10 : Int) ≤ 5) := by
  refine ⟨by decide, by decide, by decide⟩

/-- C2, amended.  For a well-formed `stts` table and `0 ≤ mt` strictly
below the total duration, the sample returned by `find_samplenum_stts`
has media time `≥ mt` (not `≤ mt`: the walk rounds up), and the next
sample's media time is strictly greater than `mt`. -/
theorem samplenum_mediatime_bounds (stts : List (Int × Int)) (mt : Int)
    (hwf : SttsWF stts) (h0 : 0 ≤ mt) (hlt : mt < durStts stts) :
    ∃ s, find_samplenum_stts stts mt = some s ∧
      mt ≤ find_mediatime_stts stts s ∧ mt < find_mediatime_stts stts (s + 1) :=
  fsfm_main 0 1 mt hwf h0 (by omega)

theorem samplenum_mediatime_bounds_witness :
    ∃ s, find_samplenum_stts [(2, 10)] 15 = some s ∧
      (15 : Int) ≤ find_mediatime_stts [(2, 10)] s ∧
      (15 : Int) < find_mediatime_stts [(2, 10)] (s + 1) :=
  samplenum_mediatime_bounds [(2, 10)] 15 (by decide) (by decide) (by decide)

/-- C4.  Cutting at sample `s` (with `1 ≤ s ≤ N`) preserves the
sample-count invariant: the run counts of `cut_sctts(stts, s)` sum to
`N - s + 1`, which equals the length of `cut_stsz2(stsz2, s)`. -/
theorem cut_preserves_sample_count (stts : List (Int × Int)) (stsz2 : List Int)
    (s N : Int) (hsum : sumCounts stts = N) (hlen : (stsz2.length : Int) = N)
    (hs1 : 1 ≤ s) (hsN : s ≤ N) :
    sumCounts (cut_sctts stts s) = N - s + 1 ∧
    ((cut_stsz2 stsz2 s).length : Int) = N - s + 1 := by
  constructor
  · have := csAux_sumCounts (l := stts) s 1 (by omega) (by omega)
    unfold cut_sctts
    rw [this, hsum]
    ring
  · unfold cut_stsz2
    have hne : stsz2 ≠ [] := by
      intro h
      rw [h] at hlen
      simp at hlen
      omega
    rw [if_neg hne]
    unfold pyDropFrom pyIdx
    rw [if_neg (by omega : ¬ s - 1 < 0)]
    rw [Nat.min_eq_left (by omega : (s - 1).toNat ≤ stsz2.length)]
    rw [List.length_drop]
    omega

theorem cut_preserves_sample_count_witness :
    sumCounts (cut_sctts [(3, 5), (2, 7)] 4) = 5 - 4 + 1 ∧
    ((cut_stsz2 [9, 9, 9, 9, 9] 4).length : Int) = 5 - 4 + 1 :=
  cut_preserves_sample_count [(3, 5), (2, 7)] [9, 9, 9, 9, 9] 4 5
    (by decide) (by decide) (by decide) (by decide)

/-- C5.  Characterization of `find_samplenum_stts` on a well-formed
table: the sample counter starts at 1; if `mt` hits the accumulated time
at the boundary of run `i` the walk returns that run's first sample
(`1 +` the counts of the previous runs), and if `mt` falls strictly
inside run `i` it returns the accumulated sample count plus
`ceil((mt - ctime) / delta)`. -/
theorem find_samplenum_characterization (stts : List (Int × Int))
    (hwf : SttsWF stts) (i : Nat) (hi : i < stts.length) (mt : Int) :
    (mt = durStts (stts.take i) →
      find_samplenum_stts stts mt = some (1 + sumCounts (stts.take i))) ∧
    (durStts (stts.take i) < mt → mt < durStts (stts.take (i + 1)) →
      find_samplenum_stts stts mt =
        some (1 + sumCounts (stts.take i) +
          pyCeilDiv (mt - durStts (stts.take i)) (stts.get ⟨i, hi⟩).2)) := by
  constructor
  · intro h
    have hb := fsAux_boundary (l := stts) i 0 1 hwf hi
    rw [zero_add] at hb
    rw [← h] at hb
    exact hb
  · intro h1 h2
    have hb := fsAux_inside (l := stts) i 0 1 mt hwf hi
      (by rw [zero_add]; exact h1) (by rw [zero_add]; exact h2)
    rw [zero_add] at hb
    exact hb

theorem find_samplenum_characterization_witness :
    find_samplenum_stts [(2, 10), (3, 4)] 21 = some 4 := by
  have h := (find_samplenum_characterization [(2, 10), (3, 4)] (by decide) 1
    (by decide) 21).2 (by decide) (by decide)
  rw [h]
  decide

/-- C6 counterexample.  For `stsc = [(1,5,1),(3,3,1)]`, sample 7 lies in
the first range's second chunk (chunks 1 and 2 hold 5 samples each), so
`find_chunknum_stsc` returns chunk 2, not the chunk 4 asserted by the
specification's scenario. -/
theorem find_chunknum_scenario2_counterexample :
    find_chunknum_stsc [(1, 5, 1), (3, 3, 1)] 7 = some 2 ∧
    (some 2 : Option Int) ≠ some 4 := by
  refine ⟨by decide, by decide⟩

/-- C6, amended.  Sample 7 of `stsc = [(1,5,1),(3,3,1)]` is in chunk 2
with `lead_samples = (7-1) % 5 = 1 > 0`, so `cut_stco64_stsc` renumbers
the table to `[(1,5,1),(2,3,1)]` and then splits the first row by
overwriting: the result is `[(1,4,1),(2,3,1)]`, and the lead sample's
size is added to the first surviving chunk offset. -/
theorem scenario2_cut_values :
    find_chunknum_stsc [(1, 5, 1), (3, 3, 1)] 7 = some 2 ∧
    cut_stco64_stsc [100, 200, 300, 400] [(1, 5, 1), (3, 3, 1)]
        [1, 2, 3, 4, 5, 6, 7, 8, 9, 10] 2 7 0 =
      some ([206, 300, 400], [(1, 4, 1), (2, 3, 1)]) := by
  refine ⟨by decide, by decide⟩

/-- C7 counterexample.  On an empty `stsc` table, `find_chunknum_stsc`
reaches `(sample_num - samples) // per_chunk` with `per_chunk = 0` and
raises `ZeroDivisionError` (embedded as `none`) — not `FormatError`, and
not a best-effort result. -/
theorem find_chunknum_empty_raises :
    find_chunknum_stsc [] 1 = none := by decide

/-- C7, amended.  `find_chunknum_stsc` can die with `ZeroDivisionError`
on an empty table (or a sample number below 1); it is total — returning
some chunk — whenever the table is nonempty, every row's
`samples_per_chunk` is positive, and `sample_num ≥ 1`. -/
theorem find_chunknum_total_on_wf (stsc : List (Int × Int × Int)) (sample_num : Int)
    (hne : stsc ≠ []) (hall : ∀ r ∈ stsc, 0 < r.2.1) (hs : 1 ≤ sample_num) :
    ∃ chunk, find_chunknum_stsc stsc sample_num = some chunk := by
  cases stsc with
  | nil => exact absurd rfl hne
  | cons hd rest =>
    obtain ⟨next, npc, nsd⟩ := hd
    have hnpc : 0 < npc := hall (next, npc, nsd) (List.mem_cons_self _ _)
    unfold find_chunknum_stsc
    simp only [fcAux, mul_zero, add_zero]
    rw [if_neg (by omega)]
    exact fcAux_total_of_pos _ _ _ _ hnpc (fun r hr => hall r (List.mem_cons_of_mem _ hr))

theorem find_chunknum_total_on_wf_witness :
    ∃ chunk, find_chunknum_stsc [(1, 5, 1)] 3 = some chunk :=
  find_chunknum_total_on_wf [(1, 5, 1)] 3 (by decide) (by decide) (by decide)

/-- C10.  For a well-formed table whose counts sum to `N`, a media time
at or past the total duration makes `find_samplenum_stts` walk off the
end and return `N + 1` — one past the last sample, with no clamping and
no error. -/
theorem find_samplenum_past_duration (stts : List (Int × Int)) (mt : Int)
    (hwf : SttsWF stts) (h : durStts stts ≤ mt) :
    find_samplenum_stts stts mt = some (1 + sumCounts stts) :=
  fsAux_beyond 0 1 mt hwf (by omega)

theorem find_samplenum_past_duration_witness :
    find_samplenum_stts [(10, 1), (5, 2)] 20 = some 16 := by
  have h := find_samplenum_past_duration [(10, 1), (5, 2)] 20 (by decide) (by decide)
  rw [h]
  decide

/-- C8 counterexample.  A movie whose only sync sample is sample 2 (media
time 2, timescale 1) has first sync point 2, but
`find_nearest_syncpoint(moov, 0)` returns 0 — `found` is initialized to 0
and never updated for `t ≤ 0` — so `t ≤ 0` is *not* clamped to the first
sync point. -/
theorem nearest_syncpoint_clamp_counterexample :
    find_sync_points c8moov = [2] ∧ find_nearest_syncpoint c8moov 0 = 0 ∧
    ((0 : Rat) ≠ 2) := by
  refine ⟨?_, ?_, by norm_num⟩ <;>
    norm_num [c8moov, c8trak, c8mdia, c8minf, c8stbl, c8mdhd, c8mvhd,
      find_sync_points, find_sync_samples, find_mediatimes,
      fmsAux, find_nearest_syncpoint, fnsLoop]

/-- C8, amended.  For every well-formed movie and every `t ≤ 0`,
`find_nearest_syncpoint` returns 0 — both when there are no sync points
(the clamp `max(0, min(t, ...))` is 0) and when there are (the scan's
`found` stays 0 and beats or ties `other`); this equals the first sync
point only when that sync point is at time 0. -/
theorem nearest_syncpoint_nonpositive_returns_zero (amoov : moov) (t : Rat)
    (h : ∀ a ∈ amoov.trak, TrakWF a) (ht : t ≤ 0) :
    find_nearest_syncpoint amoov t = 0 := by
  have hnn := find_sync_points_nonneg amoov h
  unfold find_nearest_syncpoint
  cases hs : find_sync_points amoov with
  | nil =>
    have hmin : min t ((amoov.mvhd.duration : Rat) / (amoov.mvhd.timescale : Rat) - 1 / 10) ≤ 0 :=
      le_trans (min_le_left _ _) ht
    exact max_eq_left hmin
  | cons s0 rest =>
    rw [hs] at hnn
    obtain ⟨h1, h2⟩ := fnsLoop_nonpos ht hnn
    dsimp only
    by_cases ho : 0 < (fnsLoop (s0 :: rest) t 0).2
    · rw [if_pos ?_]
      · exact h1
      · rw [h1]
        rw [abs_of_nonpos (by linarith : t - 0 ≤ 0),
          abs_of_nonneg (by linarith : (0 : Rat) ≤ (fnsLoop (s0 :: rest) t 0).2 - t)]
        linarith
    · have h20 : (fnsLoop (s0 :: rest) t 0).2 = 0 := le_antisymm (not_lt.mp ho) h2
      rw [if_neg ?_]
      · exact h20
      · rw [h1, h20]
        simp

theorem nearest_syncpoint_nonpositive_returns_zero_witness :
    find_nearest_syncpoint c8moov (-1) = 0 :=
  nearest_syncpoint_nonpositive_returns_zero c8moov (-1) (by decide) (by norm_num)

/-- Decidable equality for `Except` results, used to evaluate the split
pipeline on concrete inputs. -/
instance {e a : Type} [DecidableEq e] [DecidableEq a] : DecidableEq (Except e a) := fun x y =>
  match x, y with
  | .error u, .error v =>
    if h : u = v then isTrue (by rw [h]) else isFalse (fun he => by cases he; exact h rfl)
  | .ok u, .ok v =>
    if h : u = v then isTrue (by rw [h]) else isFalse (fun he => by cases he; exact h rfl)
  | .error _, .ok _ => isFalse (fun he => by cases he)
  | .ok _, .error _ => isFalse (fun he => by cases he)

/-! ## Concrete file for the split claims (C3) -/

/-- 10 samples of 100 bytes, 5 per chunk, sync samples 1 and 6
(media times 0 and 5 at timescale 1). -/
def c3stbl : stbl :=
  { atom := ⟨168, 8⟩,
    stss := some { atom := ⟨24, 8⟩, table := [1, 6] },
    stsz := some { atom := ⟨60, 8⟩, sample_size := 0,
                   table := [100, 100, 100, 100, 100, 100, 100, 100, 100, 100] },
    stz2 := none,
    stco := some { atom := ⟨24, 8⟩, table := [120, 620] },
    co64 := none,
    stts := { atom := ⟨24, 8⟩, table := [(10, 1)] },
    ctts := none,
    stsc := { atom := ⟨28, 8⟩, table := [(1, 5, 1)] },
    extra := [] }

def c3minf : minf := { atom := ⟨176, 8⟩, stbl := c3stbl, extra := [] }

def c3mdhd : mdhd := { atom := ⟨32, 8⟩, timescale := 1, duration := 10 }

def c3mdia : mdia := { atom := ⟨216, 8⟩, mdhd := c3mdhd, minf := c3minf, extra := [] }

def c3tkhd : tkhd := { atom := ⟨92, 8⟩, duration := 10, id := 1 }

def c3trak : trak := { atom := ⟨316, 8⟩, tkhd := c3tkhd, mdia := c3mdia, extra := [] }

def c3mvhd : mvhd := { atom := ⟨108, 8⟩, timescale := 1, duration := 10 }

/-- A movie of duration 10 (timescale 1) with sync points 0 and 5. -/
def c3moov : moov := { atom := ⟨432, 8⟩, mvhd := c3mvhd, trak := [c3trak], extra := [] }

/-- Top-level atom list of the same file: `ftyp`, `moov`, one `mdat`. -/
def c3alist : List FAtom :=
  [⟨"ftyp", 0, 24, 8, 24⟩, ⟨"moov", 24, 432, 8, 432⟩, ⟨"mdat", 456, 1008, 8, 1008⟩]

/-- Sample tables of a track with no `stss` (contributes no sync
points). -/
def c3wstbl : stbl := { c3stbl with atom := ⟨144, 8⟩, stss := none }

def c3wminf : minf := { atom := ⟨152, 8⟩, stbl := c3wstbl, extra := [] }

def c3wmdhd : mdhd := { atom := ⟨32, 8⟩, timescale := 1, duration := 0 }

def c3wmdia : mdia := { atom := ⟨192, 8⟩, mdhd := c3wmdhd, minf := c3wminf, extra := [] }

def c3wtrak : trak := { atom := ⟨292, 8⟩, tkhd := c3tkhd, mdia := c3wmdia, extra := [] }

def c3wmvhd : mvhd := { atom := ⟨108, 8⟩, timescale := 1, duration := 0 }

/-- A movie with duration 0 and no sync points: the no-sync clamp
`max(0, min(t, duration/timescale - 0.1))` is 0, which still reaches the
duration, so even the snapped time fails the `cut_moov` check. -/
def c3wmoov : moov := { atom := ⟨408, 8⟩, mvhd := c3wmvhd, trak := [c3wtrak], extra := [] }

/-- C3, amended.  For `t * timescale ≥ duration`, `cut_moov(moov, t)`
raises (first conjunct of the claim, which holds).  But `split_atoms`
re-snaps `t` to the nearest sync point first: the split fails — writing
nothing — only when the snapped time also reaches the duration;
otherwise it succeeds (see the counterexample). -/
theorem cut_moov_beyond_duration_errors (amoov : moov) (alist : List FAtom) (t : Rat)
    (h : (amoov.mvhd.duration : Rat) ≤ t * (amoov.mvhd.timescale : Rat)) :
    cut_moov amoov t = Except.error "Exceeded file duration" ∧
    ((amoov.mvhd.duration : Rat) ≤
        find_nearest_syncpoint amoov t * (amoov.mvhd.timescale : Rat) →
      (split_atoms amoov alist t).1 = [] ∧
      (split_atoms amoov alist t).2 = Except.error "Exceeded file duration") := by
  constructor
  · unfold cut_moov
    rw [if_pos h]
  · intro h2
    have hc : cut_moov amoov (find_nearest_syncpoint amoov t) =
        Except.error "Exceeded file duration" := by
      unfold cut_moov
      rw [if_pos h2]
    unfold split_atoms
    dsimp only
    rw [hc]
    exact ⟨rfl, rfl⟩

theorem cut_moov_beyond_duration_errors_witness :
    cut_moov c3wmoov 5 = Except.error "Exceeded file duration" ∧
    (split_atoms c3wmoov [] 5).1 = [] ∧
    (split_atoms c3wmoov [] 5).2 = Except.error "Exceeded file duration" :=
  ⟨(cut_moov_beyond_duration_errors c3wmoov [] 5
      (by norm_num [c3wmoov, c3wmvhd])).1,
   (cut_moov_beyond_duration_errors c3wmoov [] 5
      (by norm_num [c3wmoov, c3wmvhd])).2
    (by norm_num [c3wmoov, c3wmvhd, c3wtrak, c3wmdia, c3wminf, c3wstbl, c3stbl,
      find_nearest_syncpoint, find_sync_points, find_sync_samples, fnsLoop])⟩

/-- The movie header produced by `cut_moov c3moov 5`: cut at sample 6
(chunk 2), 5 surviving samples, chunk offset `120 - 28` after the
28-byte `moov` shrink. -/
def c3cutstbl : stbl :=
  { atom := ⟨168, 8⟩,
    stss := some { atom := ⟨24, 8⟩, table := [1] },
    stsz := some { atom := ⟨60, 8⟩, sample_size := 0,
                   table := [100, 100, 100, 100, 100] },
    stz2 := none,
    stco := some { atom := ⟨24, 8⟩, table := [92] },
    co64 := none,
    stts := { atom := ⟨24, 8⟩, table := [(5, 1)] },
    ctts := none,
    stsc := { atom := ⟨28, 8⟩, table := [(1, 5, 1)] },
    extra := [] }

def c3cutminf : minf := { atom := ⟨176, 8⟩, stbl := c3cutstbl, extra := [] }

def c3cutmdhd : mdhd := { atom := ⟨32, 8⟩, timescale := 1, duration := 5 }

def c3cutmdia : mdia := { atom := ⟨216, 8⟩, mdhd := c3cutmdhd, minf := c3cutminf, extra := [] }

def c3cuttkhd : tkhd := { atom := ⟨92, 8⟩, duration := 5, id := 1 }

def c3cuttrak : trak := { atom := ⟨316, 8⟩, tkhd := c3cuttkhd, mdia := c3cutmdia, extra := [] }

def c3cutmoov : moov := { atom := ⟨432, 8⟩, mvhd := c3mvhd, trak := [c3cuttrak], extra := [] }

/-- C3 counterexample.  On `c3moov` with `t = 100` (far beyond the
duration 10), `split_atoms` does *not* fail: `find_nearest_syncpoint`
snaps `t` back to the last sync point 5, `cut_moov` succeeds, and the
split writes its header atoms and returns the new data offset 620.  So a
split invoked with `t` beyond the duration can write output instead of
failing. -/
theorem split_beyond_duration_succeeds :
    ((c3moov.mvhd.duration : Rat) ≤ 100 * (c3moov.mvhd.timescale : Rat)) ∧
    (split_atoms c3moov c3alist 100).2 = Except.ok 620 ∧
    (split_atoms c3moov c3alist 100).1 ≠ [] := by
  have hsync : find_nearest_syncpoint c3moov 100 = 5 := by
    norm_num [c3moov, c3trak, c3mdia, c3minf, c3stbl, c3mdhd, c3mvhd,
      find_nearest_syncpoint, find_sync_points, find_sync_samples,
      find_mediatimes, fmsAux, fnsLoop]
    rfl
  have hmt : pyRound (5 * ((1 : Int) : Rat)) = 5 := by
    norm_num [pyRound]
  have hfct : find_cut_trak_info c3trak 5 = some (6, 2, 120, 620) := by
    simp only [find_cut_trak_info, c3trak, c3mdia, c3minf, c3stbl, c3mdhd, hmt]
    decide
  have hcm : cut_moov c3moov 5 = Except.ok (c3cutmoov, 500, 620) := by
    unfold cut_moov
    rw [if_neg (by norm_num [c3moov, c3mvhd])]
    simp only [c3moov, List.mapM_cons, List.mapM_nil, hfct]
    decide
  refine ⟨by norm_num [c3moov, c3mvhd], ?_, ?_⟩ <;>
  · simp only [split_atoms, hsync, hcm]
    decide

/-- Unpack a successful `find_atom`: the index is in range, points at the
requested type, and is minimal. -/
lemma find_atom_facts {alist : List FAtom} {ty : String} {i : Nat}
    (h : find_atom alist ty = some i) :
    ∃ hi : i < alist.length, (alist.get ⟨i, hi⟩).type = ty ∧
      ∀ j (hj : j < i), (alist.get ⟨j, by omega⟩).type ≠ ty := by
  unfold find_atom at h
  rw [List.findIdx?_eq_some_iff_getElem] at h
  obtain ⟨hi, hp, hmin⟩ := h
  refine ⟨hi, by simpa using hp, ?_⟩
  intro j hj
  have := hmin j hj
  simpa using this

/-- Build a successful `find_atom` from range, hit and minimality. -/
lemma find_atom_eq_some {alist : List FAtom} {ty : String} {i : Nat}
    (hi : i < alist.length) (hp : (alist.get ⟨i, hi⟩).type = ty)
    (hmin : ∀ j (hj : j < i), (alist.get ⟨j, by omega⟩).type ≠ ty) :
    find_atom alist ty = some i := by
  unfold find_atom
  rw [List.findIdx?_eq_some_iff_getElem]
  refine ⟨hi, by simpa using hp, ?_⟩
  intro j hj
  have := hmin j hj
  simpa using this

/-- `find_atom` succeeds when an atom of the type is present. -/
lemma find_atom_ne_none {alist : List FAtom} {ty : String}
    (h : ∃ a ∈ alist, a.type = ty) : find_atom alist ty ≠ none := by
  obtain ⟨a, ha, hty⟩ := h
  unfold find_atom
  rw [Ne, List.findIdx?_eq_none_iff]
  intro hall
  have := hall a ha
  simp [hty] at this
/-- Element positions in a list produced by erasing index `mi` and
re-inserting an element at `k ≤ di < mi`: indices below `k` keep their
atoms, position `k` holds the inserted atom, and the old index `di`
moves to `di + 1`. -/
lemma insert_erase_facts {alist : List FAtom} {mi di k : Nat} (x : FAtom)
    (hmi : mi < alist.length) (hdm : di < mi) (hk : k ≤ di) :
    ((List.insertIdx k x (alist.eraseIdx mi)).length = alist.length) ∧
    (∀ j (hj : j < (List.insertIdx k x (alist.eraseIdx mi)).length) (hjk : j < k),
      (List.insertIdx k x (alist.eraseIdx mi)).get ⟨j, hj⟩ =
        alist.get ⟨j, by omega⟩) ∧
    (∀ hj : k < (List.insertIdx k x (alist.eraseIdx mi)).length,
      (List.insertIdx k x (alist.eraseIdx mi)).get ⟨k, hj⟩ = x) ∧
    (∀ hj : di + 1 < (List.insertIdx k x (alist.eraseIdx mi)).length,
      (List.insertIdx k x (alist.eraseIdx mi)).get ⟨di + 1, hj⟩ =
        alist.get ⟨di, by omega⟩) := by
  have hlen1 : (alist.eraseIdx mi).length = alist.length - 1 :=
    List.length_eraseIdx_of_lt hmi
  have hkle : k ≤ (alist.eraseIdx mi).length := by omega
  refine ⟨?_, ?_, ?_, ?_⟩
  · rw [List.length_insertIdx _ _ hkle, hlen1]; omega
  · intro j hj hjk
    rw [List.get_eq_getElem, List.getElem_insertIdx_of_lt _ _ _ _ hjk (by omega)]
    rw [List.getElem_eraseIdx_of_lt _ _ _ (by omega) (by omega)]
    rw [List.get_eq_getElem]
  · intro hj
    rw [List.get_eq_getElem, List.getElem_insertIdx_self _ _ _ hkle]
  · intro hj
    have harith : di + 1 = k + (di - k) + 1 := by omega
    rw [List.get_eq_getElem]
    have hg := List.getElem_insertIdx_add_succ (alist.eraseIdx mi) x k (di - k)
      (by omega : k + (di - k) < (alist.eraseIdx mi).length)
    simp only [harith]
    rw [hg]
    rw [List.getElem_eraseIdx_of_lt _ _ _ (by omega) (by omega)]
    simp only [List.get_eq_getElem]
    congr 1
    omega

/-- The conclusions of C9 part (b), for the reinserted list
`insertIdx k moov_atom (alist.eraseIdx mi)` with `k ≤ di < mi`. -/
lemma moved_goal {alist : List FAtom} {mi di k : Nat} (m2 : moov)
    (hmilen : mi < alist.length)
    (hmity : (alist.get ⟨mi, hmilen⟩).type = "moov")
    (hmimin : ∀ j (hj : j < mi), (alist.get ⟨j, by omega⟩).type ≠ "moov")
    (hdilen : di < alist.length)
    (hdity : (alist.get ⟨di, hdilen⟩).type = "mdat")
    (hdimin : ∀ j (hj : j < di), (alist.get ⟨j, by omega⟩).type ≠ "mdat")
    (hdm : di < mi) (hk : k ≤ di) :
    (∃ m, ∃ hm : m < (List.insertIdx k (alist.get ⟨mi, hmilen⟩) (alist.eraseIdx mi)).length,
      ((List.insertIdx k (alist.get ⟨mi, hmilen⟩) (alist.eraseIdx mi)).get ⟨m, hm⟩).type = "moov" ∧
      ∀ j, ∀ hj : j < (List.insertIdx k (alist.get ⟨mi, hmilen⟩) (alist.eraseIdx mi)).length,
        ((List.insertIdx k (alist.get ⟨mi, hmilen⟩) (alist.eraseIdx mi)).get ⟨j, hj⟩).type = "mdat" →
          m < j) ∧
    move_header_and_write m2 (List.insertIdx k (alist.get ⟨mi, hmilen⟩) (alist.eraseIdx mi)) =
      some (false, []) := by
  obtain ⟨hL, hbelow, hat, hafter⟩ := insert_erase_facts (alist.get ⟨mi, hmilen⟩) hmilen hdm hk
  have hkL : k < (List.insertIdx k (alist.get ⟨mi, hmilen⟩) (alist.eraseIdx mi)).length := by
    rw [hL]; omega
  have hdiL : di + 1 < (List.insertIdx k (alist.get ⟨mi, hmilen⟩) (alist.eraseIdx mi)).length := by
    rw [hL]; omega
  have hmoovk : ((List.insertIdx k (alist.get ⟨mi, hmilen⟩) (alist.eraseIdx mi)).get ⟨k, hkL⟩).type = "moov" := by
    rw [hat hkL]; exact hmity
  have hmdatd : ((List.insertIdx k (alist.get ⟨mi, hmilen⟩) (alist.eraseIdx mi)).get ⟨di + 1, hdiL⟩).type = "mdat" := by
    rw [hafter hdiL]; exact hdity
  have hnomdat : ∀ j, ∀ hj : j < (List.insertIdx k (alist.get ⟨mi, hmilen⟩) (alist.eraseIdx mi)).length,
      j ≤ k → ((List.insertIdx k (alist.get ⟨mi, hmilen⟩) (alist.eraseIdx mi)).get ⟨j, hj⟩).type ≠ "mdat" := by
    intro j hj hjk
    rcases Nat.lt_or_ge j k with hjlt | hjge
    · rw [hbelow j hj hjlt]
      exact hdimin j (by omega)
    · have hjek : j = k := by omega
      subst hjek
      rw [hat hj, hmity]
      decide
  have hnomoov : ∀ j, ∀ hj : j < (List.insertIdx k (alist.get ⟨mi, hmilen⟩) (alist.eraseIdx mi)).length,
      j < k → ((List.insertIdx k (alist.get ⟨mi, hmilen⟩) (alist.eraseIdx mi)).get ⟨j, hj⟩).type ≠ "moov" := by
    intro j hj hjk
    rw [hbelow j hj hjk]
    exact hmimin j (by omega)
  refine ⟨⟨k, hkL, hmoovk, ?_⟩, ?_⟩
  · intro j hj hty
    by_contra hle
    exact hnomdat j hj (by omega) hty
  · have hfm2 : find_atom (List.insertIdx k (alist.get ⟨mi, hmilen⟩) (alist.eraseIdx mi)) "moov" = some k :=
      find_atom_eq_some hkL hmoovk (fun j hj => hnomoov j (by omega) hj)
    have hne : find_atom (List.insertIdx k (alist.get ⟨mi, hmilen⟩) (alist.eraseIdx mi)) "mdat" ≠ none :=
      find_atom_ne_none ⟨_, List.get_mem _ _ hdiL, hmdatd⟩
    rcases hfd2 : find_atom (List.insertIdx k (alist.get ⟨mi, hmilen⟩) (alist.eraseIdx mi)) "mdat" with _ | d2
    · exact absurd hfd2 hne
    obtain ⟨hd2len, hd2ty, hd2min⟩ := find_atom_facts hfd2
    have hkd2 : k < d2 := by
      by_contra hle
      exact hnomdat d2 hd2len (by omega) hd2ty
    unfold move_header_and_write move_header_to_front
    rw [hfm2, hfd2]
    dsimp only
    rw [if_pos hkd2]

/-- `moved_goal` stated for `pyInsertAt` with an abstract Python insertion
index whose clamped value is at most `di`. -/
lemma moved_goal_py {alist : List FAtom} {mi di : Nat} (nmi : Int) (m2 : moov)
    (hmilen : mi < alist.length)
    (hmity : (alist.get ⟨mi, hmilen⟩).type = "moov")
    (hmimin : ∀ j (hj : j < mi), (alist.get ⟨j, by omega⟩).type ≠ "moov")
    (hdilen : di < alist.length)
    (hdity : (alist.get ⟨di, hdilen⟩).type = "mdat")
    (hdimin : ∀ j (hj : j < di), (alist.get ⟨j, by omega⟩).type ≠ "mdat")
    (hdm : di < mi)
    (hk : pyIdx (alist.eraseIdx mi).length nmi ≤ di) :
    (∃ m, ∃ hm : m < (pyInsertAt (alist.eraseIdx mi) nmi (alist.get ⟨mi, hmilen⟩)).length,
      ((pyInsertAt (alist.eraseIdx mi) nmi (alist.get ⟨mi, hmilen⟩)).get ⟨m, hm⟩).type = "moov" ∧
      ∀ j, ∀ hj : j < (pyInsertAt (alist.eraseIdx mi) nmi (alist.get ⟨mi, hmilen⟩)).length,
        ((pyInsertAt (alist.eraseIdx mi) nmi (alist.get ⟨mi, hmilen⟩)).get ⟨j, hj⟩).type = "mdat" →
          m < j) ∧
    move_header_and_write m2 (pyInsertAt (alist.eraseIdx mi) nmi (alist.get ⟨mi, hmilen⟩)) =
      some (false, []) := by
  unfold pyInsertAt
  exact moved_goal m2 hmilen hmity hmimin hdilen hdity hdimin hdm hk
/-- C9.  (a) `move_header_and_write` returns `false` and writes nothing
when `moov` already precedes `mdat` (`move_header_to_front` returns
`None`).  (b) After one successful move, the produced atom list has its
`moov` before every `mdat`, so applying the transformation again to the
produced list returns `false` and writes nothing.  The hypotheses say
the parsed top-level atoms have positive sizes and appear in file order
(as `read_atoms` yields them); they rule out the unreachable
`new_moov_idx = -1` corner of the `wide` handling. -/
theorem faststart_idempotent (amoov : moov) (alist : List FAtom)
    (hpos : ∀ a ∈ alist, 0 < a.size)
    (hord : alist.Pairwise (fun a b => a.offset + a.size ≤ b.offset)) :
    (∀ mi di, find_atom alist "moov" = some mi → find_atom alist "mdat" = some di →
      mi < di → move_header_and_write amoov alist = some (false, [])) ∧
    (∀ l2 m2, move_header_to_front amoov alist = MhtfResult.moved l2 m2 →
      (∃ m, ∃ hm : m < l2.length, (l2.get ⟨m, hm⟩).type = "moov" ∧
        ∀ j, ∀ hj : j < l2.length, (l2.get ⟨j, hj⟩).type = "mdat" → m < j) ∧
      move_header_and_write m2 l2 = some (false, [])) := by
  constructor
  · intro mi di hm hd hlt
    unfold move_header_and_write move_header_to_front
    rw [hm, hd]
    dsimp only
    rw [if_pos hlt]
  · intro l2 m2 hmv
    unfold move_header_to_front at hmv
    rcases hfm : find_atom alist "moov" with _ | mi
    · rw [hfm] at hmv; cases hmv
    rcases hfd : find_atom alist "mdat" with _ | di
    · rw [hfm, hfd] at hmv; cases hmv
    rw [hfm, hfd] at hmv
    dsimp only at hmv
    obtain ⟨hmilen, hmity, hmimin⟩ := find_atom_facts hfm
    obtain ⟨hdilen, hdity, hdimin⟩ := find_atom_facts hfd
    by_cases hlt : mi < di
    · rw [if_pos hlt] at hmv; cases hmv
    rw [if_neg hlt] at hmv
    have hdm : di < mi := by
      rcases Nat.lt_or_ge di mi with h | h
      · exact h
      · exfalso
        have heq : mi = di := by omega
        have hfin : (⟨mi, hmilen⟩ : Fin alist.length) = ⟨di, hdilen⟩ := Fin.ext heq
        have h1 := hmity
        rw [hfin, hdity] at h1
        exact absurd h1 (by decide)
    rw [List.get?_eq_get hdilen, List.get?_eq_get hmilen] at hmv
    dsimp only at hmv
    rcases hcc : change_chunk_offsets amoov amoov.get_size with _ | m2v
    · rw [hcc] at hmv; cases hmv
    rw [hcc] at hmv
    dsimp only at hmv
    cases hmv
    have hlen1 : (alist.eraseIdx mi).length = alist.length - 1 :=
      List.length_eraseIdx_of_lt hmilen
    refine moved_goal_py _ m2 hmilen hmity hmimin hdilen hdity hdimin hdm ?_
    by_cases hw : (alist.any fun w =>
        decide (w.type = "wide" ∧ w.offset + w.size = (alist.get ⟨di, hdilen⟩).offset)) = true
    · have hdi1 : 1 ≤ di := by
        by_contra h0
        have hdi0 : di = 0 := by omega
        subst hdi0
        rw [List.any_eq_true] at hw
        obtain ⟨w, hwmem, hwp⟩ := hw
        rw [decide_eq_true_eq] at hwp
        obtain ⟨hwty, hwoff⟩ := hwp
        obtain ⟨⟨jw, hjw⟩, hjweq⟩ := List.mem_iff_get.mp hwmem
        rcases Nat.eq_zero_or_pos jw with hjw0 | hjwpos
        · subst hjw0
          rw [← hjweq] at hwty
          have hf0 : (⟨0, hjw⟩ : Fin alist.length) = ⟨0, hdilen⟩ := rfl
          rw [hf0, hdity] at hwty
          exact absurd hwty (by decide)
        · have hrel := (List.pairwise_iff_get.mp hord) ⟨0, hdilen⟩ ⟨jw, hjw⟩
            (Fin.mk_lt_mk.mpr hjwpos)
          rw [hjweq] at hrel
          have hs0 : 0 < (alist.get ⟨0, hdilen⟩).size := hpos _ (List.get_mem _ _ hdilen)
          have hsw : 0 < w.size := hpos _ hwmem
          omega
      rw [if_pos hw]
      unfold pyIdx
      rw [if_neg (by omega : ¬ (di : Int) - 1 < 0)]
      have h1 : ((di : Int) - 1).toNat = di - 1 := by omega
      rw [h1]
      have := Nat.min_le_left (di - 1) (alist.eraseIdx mi).length
      omega
    · rw [if_neg hw]
      unfold pyIdx
      rw [if_neg (by omega : ¬ (di : Int) < 0)]
      have h1 : ((di : Int)).toNat = di := by omega
      rw [h1]
      have := Nat.min_le_left di (alist.eraseIdx mi).length
      omega

/-! ### Concrete faststart instance -/

/-- A non-faststart file: `moov` after the single `mdat`. -/
def c9alist : List FAtom :=
  [⟨"ftyp", 0, 24, 8, 24⟩, ⟨"mdat", 24, 1008, 8, 1008⟩, ⟨"moov", 1032, 432, 8, 432⟩]

/-- The atom order after `move_header_to_front`. -/
def c9list2 : List FAtom :=
  [⟨"ftyp", 0, 24, 8, 24⟩, ⟨"moov", 1032, 432, 8, 432⟩, ⟨"mdat", 24, 1008, 8, 1008⟩]

def c9stbl : stbl := { c3stbl with stco := some { atom := ⟨24, 8⟩, table := [552, 1052] } }

def c9minf : minf := { c3minf with stbl := c9stbl }

def c9mdia : mdia := { c3mdia with minf := c9minf }

def c9trak : trak := { c3trak with mdia := c9mdia }

/-- `c3moov` with every chunk offset shifted by `moov.get_size = 432`. -/
def c9m2 : moov := { c3moov with trak := [c9trak] }

theorem faststart_idempotent_witness :
    move_header_and_write c9m2 c9list2 = some (false, []) :=
  ((faststart_idempotent c3moov c9alist (by decide) (by decide)).2
    c9list2 c9m2 (by decide)).2

end Mp4seek
